import Mathlib

/-!
# Verification of the Upbit exchange adapter (js/upbit.js)

A shallow embedding in Lean 4 of the first (most complete) revision of the
adapter: `normalizeSymbol`, `fetchBalance`, `fetchMyTrades` (with its
`_fetchMyWaitTrades` helper), `createOrder`, `sign` (bearer-token variant)
and `handleErrors`.

Modelling conventions:
* JavaScript numbers are modelled as `Option ℚ`, with `none` standing for
  `undefined`/`NaN`; the arithmetic helpers propagate `none` the way JS
  arithmetic propagates `NaN`.
* JavaScript objects used as request payloads are association lists
  `List (String × JVal)`; `Object.assign`-style merging (`this.extend`) is
  `jsExtend`, property lookup is `List.lookup` (object-literal keys are
  unique, so first match is the JS semantics).
* Network effects are modelled by passing the transport as an oracle
  function and returning, next to the result, the list of requests the
  operation issued, in order; an operation that throws before reaching the
  network returns an empty request list.
* External libraries (`jsonwebtoken`, `moment`, `lodash`) and base-class
  helpers that are not part of the source file are modelled at the level
  of their documented behaviour, each with a doc comment saying so.
-/

-- Results of fallible operations are compared in concrete checks below,
-- so equality on `Except` is made decidable.
deriving instance DecidableEq for Except

/-- Errors thrown by the adapter.  The source layer throws only the generic
`ExchangeError` class (carrying a message); the credentials pre-check of the
base class is kept as a separate constructor so that configuration failures
are distinguishable in statements. -/
inductive UpbitError where
  | exchangeError (msg : String)
  | missingCredentials
deriving DecidableEq, Repr

/-- A JavaScript value appearing in a request payload: a string, a number,
or `undefined` (an optional argument that was not supplied). -/
inductive JVal where
  | s (v : String)
  | n (v : ℚ)
  | undef
deriving DecidableEq, Repr

/-- JS `String.prototype.split` with a one-character separator, on the
character list of the string: `"a/b" → ["a","b"]`, `"abc" → ["abc"]`,
`"" → [""]`, `"/b" → ["","b"]`. -/
def charSplit (sep : Char) : List Char → List (List Char)
  | [] => [[]]
  | c :: rest =>
    match charSplit sep rest with
    | [] => [[]]
    | p :: ps => if c = sep then [] :: p :: ps else (c :: p) :: ps

/-- JS array indexing followed by string coercion: an out-of-bounds index
yields `undefined`, which string concatenation renders as `"undefined"`. -/
def jsIndexStr (parts : List (List Char)) (i : Nat) : List Char :=
  parts.getD i ("undefined".data)

/-- `normalizeSymbol` from the source: split the symbol on `/` and return
`parts[1] + '-' + parts[0]` (so `BTC/KRW → KRW-BTC`).  No validation is
performed; malformed input produces a garbage market code instead of an
error. -/
def normalizeSymbol (symbol : String) : String :=
  let symbols := charSplit '/' symbol.data
  String.mk (jsIndexStr symbols 1) ++ "-" ++ String.mk (jsIndexStr symbols 0)

/-- NaN-propagating multiplication on JS numbers. -/
def jsMul : Option ℚ → Option ℚ → Option ℚ
  | some a, some b => some (a * b)
  | _, _ => none

/-- NaN-propagating subtraction on JS numbers. -/
def jsSub : Option ℚ → Option ℚ → Option ℚ
  | some a, some b => some (a - b)
  | _, _ => none

/-- NaN-propagating addition on JS numbers. -/
def jsAdd : Option ℚ → Option ℚ → Option ℚ
  | some a, some b => some (a + b)
  | _, _ => none

/-- JS `a || b` on numbers: `b` when `a` is falsy (`undefined`, `NaN` or
`0`), otherwise `a`. -/
def jsOr (a b : Option ℚ) : Option ℚ :=
  match a with
  | some x => if x = 0 then b else some x
  | none => b

/-- `this.extend (a, b)` / `Object.assign ({}, a, b)`: the keys of `a` in
order with values overridden by `b` where present, followed by the keys of
`b` not present in `a`, in order. -/
def jsExtend (a b : List (String × JVal)) : List (String × JVal) :=
  a.map (fun p => (p.1, (b.lookup p.1).getD p.2)) ++
    b.filter (fun p => (a.lookup p.1).isNone)

/-- JS property assignment `m[k] = v`: replace the value in place when the
key is already present, append otherwise. -/
def jsAssign (m : List (String × α)) (k : String) (v : α) : List (String × α) :=
  if (m.lookup k).isSome then
    m.map (fun p => if p.1 = k then (k, v) else p)
  else
    m ++ [(k, v)]

/-- Digit run to a natural-number value (characters assumed to be digits). -/
def digitsVal (cs : List Char) : ℚ :=
  cs.foldl (fun acc c => acc * 10 + ((c.toNat - 48 : Nat) : ℚ)) 0

/-- Modelled from the spec: the `balance parsed as a float` step uses the JS
builtin `parseFloat`, which is not part of the source file.  This model
parses an optional sign followed by a decimal-digit prefix with an optional
fractional part, and yields `none` (NaN) when no digit is consumed —
covering numeric strings and rejecting non-numeric ones, as `parseFloat`
does. -/
def parseFloatCore (cs : List Char) : Option ℚ :=
  let signAndRest : ℚ × List Char :=
    match cs with
    | '-' :: r => (-1, r)
    | '+' :: r => (1, r)
    | r => (1, r)
  let sign := signAndRest.1
  let rest := signAndRest.2
  let ip := rest.takeWhile Char.isDigit
  let rest2 := rest.drop ip.length
  match rest2 with
  | '.' :: r2 =>
    let fp := r2.takeWhile Char.isDigit
    if ip.isEmpty ∧ fp.isEmpty then none
    else some (sign * (digitsVal ip + digitsVal fp / (10 : ℚ) ^ fp.length))
  | _ => if ip.isEmpty then none else some (sign * digitsVal ip)

/-- JS `parseFloat` applied to a possibly-missing string field:
`parseFloat(undefined)` is NaN. -/
def jsParseFloat : Option String → Option ℚ
  | none => none
  | some s => parseFloatCore s.data

/-- One vendor account record returned by `GET accounts`; `balance` is
`none` when the field is missing from the record. -/
structure Account where
  currency : String
  balance : Option String
deriving DecidableEq, Repr

/-- `fetchBalance` from the source: requests the account list and builds
`free[coin.currency] = parseFloat(coin.balance)` for each record, returning
`{ free }`.  Note the source performs no validation at all: a non-numeric
balance is stored as NaN (`none` here), never raised. -/
def fetchBalance
    (getAccounts : List (String × JVal) → Except UpbitError (List Account))
    (params : List (String × JVal)) :
    Except UpbitError (List (String × Option ℚ)) :=
  match getAccounts params with
  | .error e => .error e
  | .ok response =>
    .ok (response.foldl
      (fun free coin => jsAssign free coin.currency (jsParseFloat coin.balance)) [])

/-- One vendor order record returned by `GET orders`.  The numeric fields
are `Option ℚ` (`none` = missing/unparseable, i.e. `safeFloat` yields
`undefined`); `created_at` is the vendor creation time as parsed by the
external `moment` library into epoch milliseconds (the library itself is
external, so the parsed value is carried directly). -/
structure VendorOrder where
  uuid : String
  side : String
  executed_volume : Option ℚ
  avg_price : Option ℚ
  price : Option ℚ
  paid_fee : Option ℚ
  created_at : Int
deriving DecidableEq, Repr

/-- The canonical trade record built by `fetchMyTrades` for each vendor
order (the `info` back-pointer is kept as the whole vendor record). -/
structure CanonicalTrade where
  info : VendorOrder
  id : String
  /-- `moment(created_at).valueOf() * 1000`: microseconds. -/
  timestamp : Int
  symbol : String
  order : String
  type : String
  side : String
  takerOrMaker : String
  price : Option ℚ
  amount : Option ℚ
  cost : Option ℚ
  feeCost : Option ℚ
deriving DecidableEq, Repr

/-- The body of the normalization loop of `fetchMyTrades`, applied to one
vendor order record. -/
def normalizeTrade (symbol : String) (txn : VendorOrder) : CanonicalTrade :=
  let coinAmount := txn.executed_volume
  let price := jsOr txn.avg_price txn.price
  let fee := txn.paid_fee
  let totalCost :=
    if txn.side = "ask" then jsSub (jsMul coinAmount price) fee
    else jsAdd (jsMul coinAmount price) fee
  { info := txn
    id := txn.uuid
    timestamp := txn.created_at * 1000
    symbol := symbol
    order := txn.uuid
    type := "limit"
    side := if txn.side = "ask" then "sell" else "buy"
    takerOrMaker := "taker"
    price := price
    amount := coinAmount
    cost := totalCost
    feeCost := fee }

/-- The comparator of `_.orderBy(result, 'timestamp', 'desc')`: `a` may
stay before `b` when its timestamp is at least `b`'s.  lodash `orderBy` is
a stable sort, and for a total transitive comparator every stable sort
produces the same output, so the stable `List.insertionSort` below models
it faithfully. -/
def tsDesc (a b : CanonicalTrade) : Prop :=
  b.timestamp ≤ a.timestamp

instance : DecidableRel tsDesc :=
  fun a b => inferInstanceAs (Decidable (b.timestamp ≤ a.timestamp))

/-- `_.orderBy(waitTrades, 'timestamp', 'asc')` in `_fetchMyWaitTrades`:
`VendorOrder` records have no `timestamp` property (their time field is
`created_at`), so every sort key is `undefined`, every comparison ties, and
the stable sort leaves the list in vendor order. -/
def jsOrderByMissingKeyAsc (l : List VendorOrder) : List VendorOrder :=
  List.insertionSort (fun _ _ => True) l

/-- The result of `fetchMyTrades`: the `done`/`cancel` path returns
canonical trades, while the `state=wait` path returns the raw vendor
records unnormalized (the source's `_fetchMyWaitTrades` returns
`waitTrades` directly, not canonical trades). -/
inductive FetchResult where
  | raw (orders : List VendorOrder)
  | trades (ts : List CanonicalTrade)
deriving DecidableEq, Repr

/-- The `requestDoneTrades` payload (before merging with `params`). -/
def doneRequest (sym : String) : List (String × JVal) :=
  [("market", JVal.s (normalizeSymbol sym)), ("state", JVal.s "done"),
   ("order_by", JVal.s "desc")]

/-- The `requestCancelledTrades` payload (before merging with `params`). -/
def cancelRequest (sym : String) : List (String × JVal) :=
  [("market", JVal.s (normalizeSymbol sym)), ("state", JVal.s "cancel"),
   ("order_by", JVal.s "desc")]

/-- The `requestWaitTrades` payload of `_fetchMyWaitTrades` (the source
does not merge `params` into it). -/
def waitRequest (sym : String) : List (String × JVal) :=
  [("market", JVal.s (normalizeSymbol sym)), ("state", JVal.s "wait"),
   ("order_by", JVal.s "desc")]

/-- `fetchMyTrades` from the source.  `getOrders` is the
`privateGetOrders` transport capability; the second component of the
result is the list of requests actually issued, in order (`await` is
sequential, so a failing first request stops the pipeline before the
second is issued). -/
def fetchMyTrades
    (getOrders : List (String × JVal) → Except UpbitError (List VendorOrder))
    (symbol : Option String) (params : List (String × JVal)) :
    Except UpbitError FetchResult × List (List (String × JVal)) :=
  match symbol with
  | none =>
    (.error (.exchangeError "upbit fetchMyTrades requires a symbol argument"), [])
  | some sym =>
    if params.lookup "state" = some (JVal.s "wait") then
      match getOrders (waitRequest sym) with
      | .error e => (.error e, [waitRequest sym])
      | .ok waitTrades =>
        (.ok (.raw (jsOrderByMissingKeyAsc waitTrades)), [waitRequest sym])
    else
      let reqDone := jsExtend (doneRequest sym) params
      match getOrders reqDone with
      | .error e => (.error e, [reqDone])
      | .ok doneTrades =>
        let reqCancel := jsExtend (cancelRequest sym) params
        match getOrders reqCancel with
        | .error e => (.error e, [reqDone, reqCancel])
        | .ok cancelledTrades =>
          let result := (doneTrades ++ cancelledTrades).map (normalizeTrade sym)
          (.ok (.trades (List.insertionSort tsDesc result)), [reqDone, reqCancel])

/-- The vendor acknowledgment of a placed order: only `uuid` is read. -/
structure CreateResponse where
  uuid : String
deriving DecidableEq, Repr

/-- The order handle returned by `createOrder`. -/
structure OrderHandle where
  id : String
deriving DecidableEq, Repr

/-- Rendering of an optional numeric argument into a payload value: an
absent optional argument stays `undefined` in the JS object. -/
def jsOptNum : Option ℚ → JVal
  | some q => JVal.n q
  | none => JVal.undef

/-- `createOrder` from the source: maps `buy → bid` (scaling the volume by
`1 / 1.0015`, the fee being withheld from the balance) and `sell → ask`;
rejects any type other than `limit` with
`ExchangeError('Order type not supported.')` before any network call;
otherwise posts `{market, side, volume, price, ord_type:'limit'}` merged
with `params`. -/
def createOrder
    (postOrders : List (String × JVal) → Except UpbitError CreateResponse)
    (symbol : String) (type : String) (side : String) (amount : ℚ)
    (price : Option ℚ) (params : List (String × JVal)) :
    Except UpbitError OrderHandle × List (List (String × JVal)) :=
  let actualAmount := if side = "buy" then amount * (1 / (1.0015 : ℚ)) else amount
  let vendorSide := if side = "buy" then "bid" else if side = "sell" then "ask" else side
  if type = "limit" then
    let request : List (String × JVal) :=
      [("market", JVal.s (normalizeSymbol symbol)), ("side", JVal.s vendorSide),
       ("volume", JVal.n actualAmount), ("price", jsOptNum price),
       ("ord_type", JVal.s "limit")]
    let posted := jsExtend request params
    match postOrders posted with
    | .error e => (.error e, [posted])
    | .ok response => (.ok { id := response.uuid }, [posted])
  else
    (.error (.exchangeError "Order type not supported."), [])

/-- Modelled from the spec: path templating (`implodeParams` /
`extractParams` live in the base class, not in the source file).  Extracts
the placeholder names `\x7bname\x7d` occurring in a path template. -/
def extractParams (path : String) : List String :=
  ((charSplit '\x7b' path.data).tail).map
    (fun seg => String.mk (seg.takeWhile (fun c => c ≠ '\x7d')))

/-- Modelled from the spec: path templating.  Replaces each placeholder
`\x7bname\x7d` in the path with the string rendering of the corresponding
parameter. -/
def renderJVal : JVal → String
  | .s v => v
  | .n q => toString q
  | .undef => "undefined"

/-- Modelled from the spec: substitution half of path templating. -/
def implodeParams (path : String) (params : List (String × JVal)) : String :=
  match charSplit '\x7b' path.data with
  | [] => path
  | first :: segs =>
    String.mk first ++ String.join (segs.map (fun seg =>
      let key := String.mk (seg.takeWhile (fun c => c ≠ '\x7d'))
      let rest := String.mk ((seg.dropWhile (fun c => c ≠ '\x7d')).drop 1)
      (params.lookup key).elim "undefined" renderJVal ++ rest))

/-- `this.omit (params, keys)` from the base class: drop the listed keys. -/
def jsOmit (params : List (String × JVal)) (keys : List String) :
    List (String × JVal) :=
  params.filter (fun p => ¬ p.1 ∈ keys)

/-- Modelled from the spec: `this.urlencode` (base class) is a
`deterministic URL-encoded serialization` of the key-value pairs; the
claims under verification depend only on determinism, so percent-escaping
is not reproduced. -/
def urlencode (q : List (String × JVal)) : String :=
  String.intercalate "&" (q.map (fun p => p.1 ++ "=" ++ renderJVal p.2))

/-- The claims object signed into the bearer token. -/
structure JwtPayload where
  access_key : String
  nonce : String
  /-- the `query` claim; `none` when the claim is absent from the object. -/
  query : Option String
deriving DecidableEq, Repr

/-- The transport-ready request produced by `sign`.  The external
`jsonwebtoken.sign` is modelled as the pair of the claims object and the
signing secret (signing is deterministic and, for specification purposes,
injective), carried where the `Authorization: Bearer` header would be;
`token = none` on the public branch where no auth header is emitted. -/
structure SignedRequest where
  url : String
  method : String
  body : Option String
  token : Option (JwtPayload × String)
deriving DecidableEq, Repr

/-- The adapter configuration: credentials plus the clock capability read
by `nonce()` (current epoch milliseconds). -/
structure SignEnv where
  apiKey : String
  secret : String
  nowMillis : Int
deriving DecidableEq, Repr

/-- The JS guard `params !== {}` of `sign`: `!==` on objects compares
references and the literal `\x7b\x7d` is a fresh object, so the test is true
for every `params` value, the empty object included. -/
def jsNeqFreshObject (_ : List (String × JVal)) : Bool := true

/-- both `urls.api.public` and `urls.api.private` -/
def apiUrl (_ : String) : String := "https://api.upbit.com/v1"

/-- `sign` from the source (bearer-token revision).  On the public branch
the query is appended to the URL when non-empty and no auth material is
produced.  On the private branch: credentials are checked first
(`checkRequiredCredentials`, modelled from the spec: `MissingCredentials`
when accessKey or secret is absent), the body is always set to the
url-encoded query, the claims are `access_key`/`nonce` plus the `query`
claim guarded by `params !== \x7b\x7d` (always true, see
`jsNeqFreshObject`), and GET requests additionally put the query in the
URL. -/
def signRequest (env : SignEnv) (path : String) (api : String)
    (method : String) (params : List (String × JVal)) (body : Option String) :
    Except UpbitError SignedRequest :=
  let endpoint := "/" ++ implodeParams path params
  let url := apiUrl api ++ endpoint
  let query := jsOmit params (extractParams path)
  if api = "public" then
    .ok { url := if query.length ≠ 0 then url ++ "?" ++ urlencode query else url
          method := method, body := body, token := none }
  else
    if env.apiKey = "" ∨ env.secret = "" then .error .missingCredentials
    else
      let body2 := urlencode (jsExtend [] query)
      let nonce := toString env.nowMillis
      let payload : JwtPayload :=
        { access_key := env.apiKey, nonce := nonce
          query := if jsNeqFreshObject params then some body2 else none }
      let url2 := if method = "GET" then url ++ "?" ++ urlencode query else url
      .ok { url := url2, method := method, body := some body2
            token := some (payload, env.secret) }

/-- A parsed JSON body as far as `handleErrors` inspects it: the vendor's
error payloads are flat string-valued objects
(`\x7b"status":"...","message":"..."\x7d`); anything else (arrays, strings,
numbers) has no `status` property. -/
inductive Json where
  | obj (fields : List (String × String))
  | other
deriving DecidableEq, Repr

/-- `this.json` / `JSON.stringify` on a flat string-valued object, as used
to build the error feedback text. -/
def jsonStringify (fields : List (String × String)) : String :=
  "\x7b" ++
    String.intercalate ","
      (fields.map (fun p => "\"" ++ p.1 ++ "\":\"" ++ p.2 ++ "\"")) ++
    "\x7d"

/-- The static `exceptions` table of `describe()`: status code `5100` maps
to the `ExchangeError` class. -/
def exceptionsTable : List (String × (String → UpbitError)) :=
  [("5100", UpbitError.exchangeError)]

/-- `handleErrors` from the source.  `parse` is the external `JSON.parse`
capability (total here: the vendor bodies under classification are valid
JSON).  Returns `some e` when the classifier throws `e`, `none` when it
falls through to the default transport handler (a non-string body, a body
shorter than 2 characters, a body whose first character is not `\x7b` or
`[`, a payload without a `status` key, and the success status `"0000"` all
fall through). -/
def handleErrors (parse : String → Json) (body : Option String) :
    Option UpbitError :=
  match body with
  | none => none
  | some s =>
    if s.length < 2 then none
    else if s.front = '\x7b' ∨ s.front = '[' then
      match parse s with
      | .other => none
      | .obj fields =>
        match fields.lookup "status" with
        | none => none
        | some status =>
          if status = "0000" then none
          else
            let feedback := "upbit " ++ jsonStringify fields
            match exceptionsTable.lookup status with
            | some mk => some (mk feedback)
            | none => some (.exchangeError feedback)
    else none

/-! ## Helper lemmas -/
theorem charSplit_ne_nil (sep : Char) (l : List Char) : charSplit sep l ≠ [] := by
  cases l with
  | nil => simp [charSplit]
  | cons c rest =>
    simp only [charSplit]
    cases h : charSplit sep rest with
    | nil => simp
    | cons p ps =>
      by_cases hc : c = sep <;> simp [hc]

theorem charSplit_of_not_mem (sep : Char) (xs : List Char) (h : sep ∉ xs) :
    charSplit sep xs = [xs] := by
  induction xs with
  | nil => rfl
  | cons c rest ih =>
    have hc : c ≠ sep := fun hcc => h (hcc ▸ List.mem_cons_self c rest)
    have hrest : sep ∉ rest := fun hm => h (List.mem_cons_of_mem c hm)
    simp only [charSplit, ih hrest]
    simp [hc]

theorem charSplit_append_sep (sep : Char) (xs ys : List Char) (h : sep ∉ xs) :
    charSplit sep (xs ++ sep :: ys) = xs :: charSplit sep ys := by
  induction xs with
  | nil =>
    simp only [List.nil_append, charSplit]
    cases hys : charSplit sep ys with
    | nil => exact absurd hys (charSplit_ne_nil sep ys)
    | cons p ps => simp
  | cons c rest ih =>
    have hc : c ≠ sep := fun hcc => h (hcc ▸ List.mem_cons_self c rest)
    have hrest : sep ∉ rest := fun hm => h (List.mem_cons_of_mem c hm)
    simp only [List.cons_append, charSplit, List.append_eq]
    rw [ih hrest]
    simp [hc]

theorem lookup_replaceMap_self (m : List (String × α)) (k : String) (v : α)
    (h : (m.lookup k).isSome) :
    (m.map (fun p => if p.1 = k then (k, v) else p)).lookup k = some v := by
  induction m with
  | nil => simp [List.lookup] at h
  | cons a rest ih =>
    obtain ⟨a1, a2⟩ := a
    simp only [List.map_cons]
    by_cases ha : a1 = k
    · subst ha
      rw [if_pos rfl]
      simp [List.lookup]
    · rw [if_neg ha]
      have hb : (k == a1) = false := by
        simp only [beq_eq_false_iff_ne, ne_eq]
        exact fun hk => ha hk.symm
      have h2 : (rest.lookup k).isSome := by
        simpa [List.lookup, hb] using h
      simp only [List.lookup, hb]
      exact ih h2

theorem lookup_replaceMap_other (m : List (String × α)) (k q : String) (v : α)
    (h : q ≠ k) :
    (m.map (fun p => if p.1 = k then (k, v) else p)).lookup q = m.lookup q := by
  induction m with
  | nil => rfl
  | cons a rest ih =>
    obtain ⟨a1, a2⟩ := a
    simp only [List.map_cons]
    by_cases ha : a1 = k
    · subst ha
      rw [if_pos rfl]
      have hb : (q == a1) = false := by simp [beq_eq_false_iff_ne, h]
      simp only [List.lookup, hb]
      exact ih
    · rw [if_neg ha]
      by_cases hq : q = a1
      · subst hq
        simp [List.lookup]
      · have hb : (q == a1) = false := by simp [beq_eq_false_iff_ne, hq]
        simp only [List.lookup, hb]
        exact ih

theorem lookup_append_right_single (m : List (String × α)) (k : String) (v : α)
    (h : m.lookup k = none) :
    (m ++ [(k, v)]).lookup k = some v := by
  induction m with
  | nil => simp [List.lookup]
  | cons a rest ih =>
    obtain ⟨a1, a2⟩ := a
    by_cases hq : k = a1
    · subst hq
      simp [List.lookup] at h
    · have hb : (k == a1) = false := by simp [beq_eq_false_iff_ne, hq]
      simp only [List.lookup, hb] at h
      simp only [List.cons_append, List.lookup, hb]
      exact ih h

theorem lookup_append_right_other (m : List (String × α)) (k q : String) (v : α)
    (h : q ≠ k) :
    (m ++ [(k, v)]).lookup q = m.lookup q := by
  induction m with
  | nil =>
    have hb : (q == k) = false := by simp [beq_eq_false_iff_ne, h]
    simp [List.lookup, hb]
  | cons a rest ih =>
    obtain ⟨a1, a2⟩ := a
    by_cases hq : q = a1
    · subst hq
      simp [List.lookup]
    · have hb : (q == a1) = false := by simp [beq_eq_false_iff_ne, hq]
      simp only [List.cons_append, List.lookup, hb]
      exact ih

theorem lookup_jsAssign_self (m : List (String × α)) (k : String) (v : α) :
    (jsAssign m k v).lookup k = some v := by
  unfold jsAssign
  by_cases h : (m.lookup k).isSome
  · rw [if_pos h]
    exact lookup_replaceMap_self m k v h
  · rw [if_neg h]
    refine lookup_append_right_single m k v ?_
    cases hm : m.lookup k with
    | none => rfl
    | some w => rw [hm] at h; simp at h

theorem lookup_jsAssign_other (m : List (String × α)) (k q : String) (v : α)
    (h : q ≠ k) :
    (jsAssign m k v).lookup q = m.lookup q := by
  unfold jsAssign
  by_cases hs : (m.lookup k).isSome
  · rw [if_pos hs]
    exact lookup_replaceMap_other m k q v h
  · rw [if_neg hs]
    exact lookup_append_right_other m k q v h

theorem jsExtend_nil_left (b : List (String × JVal)) : jsExtend [] b = b := by
  simp [jsExtend, List.lookup]

theorem foldl_assign_of_not_mem (resp : List Account)
    (init : List (String × Option ℚ)) (k : String)
    (h : ∀ c ∈ resp, c.currency ≠ k) :
    (resp.foldl (fun free coin =>
      jsAssign free coin.currency (jsParseFloat coin.balance)) init).lookup k =
      init.lookup k := by
  induction resp generalizing init with
  | nil => rfl
  | cons c rest ih =>
    rw [List.foldl_cons, ih _ (fun d hd => h d (List.mem_cons_of_mem c hd))]
    exact lookup_jsAssign_other init c.currency k _
      (fun hk => (h c (List.mem_cons_self c rest)) hk.symm)

theorem lookup_foldl_assign (resp : List Account)
    (init : List (String × Option ℚ)) (c : Account)
    (hnd : (resp.map Account.currency).Nodup) (hc : c ∈ resp) :
    (resp.foldl (fun free coin =>
      jsAssign free coin.currency (jsParseFloat coin.balance)) init).lookup
        c.currency = some (jsParseFloat c.balance) := by
  induction resp generalizing init with
  | nil => cases hc
  | cons a rest ih =>
    have hnd2 : (a.currency :: rest.map Account.currency).Nodup := by
      simpa only [List.map_cons] using hnd
    rw [List.foldl_cons]
    rcases List.mem_cons.mp hc with rfl | hmem
    · have hnotin : c.currency ∉ rest.map Account.currency :=
        (List.nodup_cons.mp hnd2).1
      have hrest : ∀ d ∈ rest, d.currency ≠ c.currency := by
        intro d hd he
        exact hnotin (he ▸ List.mem_map_of_mem Account.currency hd)
      rw [foldl_assign_of_not_mem rest _ _ hrest]
      exact lookup_jsAssign_self init c.currency _
    · exact ih _ (List.nodup_cons.mp hnd2).2 hmem

/-! ## Claims -/

/-- C1: every vendor trade record normalized by `fetchMyTrades` has
amount = `executed_volume`, price = `avg_price` when present and non-zero
and otherwise `price`, fee = `paid_fee`, cost = amount×price − fee for
vendor side `ask` and amount×price + fee for vendor side `bid`, and
canonical side `sell` for `ask` and `buy` for `bid`. -/
theorem upbit_C1 (sym : String) (txn : VendorOrder) (v p f : ℚ)
    (hv : txn.executed_volume = some v) (hf : txn.paid_fee = some f)
    (hp : txn.avg_price = some p ∧ p ≠ 0 ∨
          (txn.avg_price = none ∨ txn.avg_price = some 0) ∧ txn.price = some p) :
    (normalizeTrade sym txn).amount = some v ∧
    (normalizeTrade sym txn).price = some p ∧
    (normalizeTrade sym txn).feeCost = some f ∧
    (txn.side = "ask" →
      (normalizeTrade sym txn).cost = some (v * p - f) ∧
      (normalizeTrade sym txn).side = "sell") ∧
    (txn.side = "bid" →
      (normalizeTrade sym txn).cost = some (v * p + f) ∧
      (normalizeTrade sym txn).side = "buy") := by
  have hpr : jsOr txn.avg_price txn.price = some p := by
    rcases hp with ⟨h1, h2⟩ | ⟨h1 | h1, h2⟩ <;> simp [jsOr, h1, h2]
  refine ⟨?_, ?_, ?_, ?_, ?_⟩
  · simp [normalizeTrade, hv]
  · simp [normalizeTrade, hpr]
  · simp [normalizeTrade, hf]
  · intro hside
    constructor <;> simp [normalizeTrade, hside, hv, hf, hpr, jsMul, jsSub]
  · intro hside
    constructor <;> simp [normalizeTrade, hside, hv, hf, hpr, jsMul, jsAdd]

/-- Witness for C1 at the spec's own example record
`(executed_volume 2, avg_price 50000, paid_fee 15, side ask)`:
amount 2, price 50000, cost 99985, side `sell`. -/
theorem upbit_C1_witness :
    (normalizeTrade "BTC/KRW"
      ⟨"u1", "ask", some 2, some 50000, some 49000, some 15, 0⟩).amount = some 2 ∧
    (normalizeTrade "BTC/KRW"
      ⟨"u1", "ask", some 2, some 50000, some 49000, some 15, 0⟩).price = some 50000 ∧
    (normalizeTrade "BTC/KRW"
      ⟨"u1", "ask", some 2, some 50000, some 49000, some 15, 0⟩).cost = some 99985 ∧
    (normalizeTrade "BTC/KRW"
      ⟨"u1", "ask", some 2, some 50000, some 49000, some 15, 0⟩).side = "sell" := by
  obtain ⟨ha, hp', hf', hask, _⟩ :=
    upbit_C1 "BTC/KRW" ⟨"u1", "ask", some 2, some 50000, some 49000, some 15, 0⟩
      2 50000 15 rfl rfl (Or.inl ⟨rfl, by norm_num⟩)
  obtain ⟨hc, hs⟩ := hask rfl
  refine ⟨ha, hp', ?_, hs⟩
  rw [hc]
  norm_num

/-- C2 counterexample: a response with a non-numeric `balance` does NOT
fail the call with `MalformedResponse`; `fetchBalance` succeeds and stores
NaN (`none`) for that currency. -/
theorem upbit_C2_counterexample :
    fetchBalance (fun _ => .ok [⟨"BTC", some "abc"⟩]) [] =
      .ok [("BTC", (none : Option ℚ))] := by
  rfl

/-- C2 (amended): `fetchBalance` never raises on malformed balances; when
the transport succeeds it returns a mapping in which every entry's currency
(currencies assumed distinct, as vendor account lists are) is mapped to
`parseFloat` of its balance — the parsed float for numeric balances, NaN
(`none`) for non-numeric or missing ones. -/
theorem upbit_C2_amended
    (getAccounts : List (String × JVal) → Except UpbitError (List Account))
    (params : List (String × JVal)) (resp : List Account) (c : Account)
    (hok : getAccounts params = .ok resp)
    (hnd : (resp.map Account.currency).Nodup) (hc : c ∈ resp) :
    ∃ free, fetchBalance getAccounts params = .ok free ∧
      free.lookup c.currency = some (jsParseFloat c.balance) := by
  refine ⟨resp.foldl (fun free coin =>
      jsAssign free coin.currency (jsParseFloat coin.balance)) [], ?_, ?_⟩
  · unfold fetchBalance
    rw [hok]
  · exact lookup_foldl_assign resp [] c hnd hc

/-- Witness for C2 (amended) on a one-entry numeric response. -/
theorem upbit_C2_amended_witness :
    ∃ free, fetchBalance (fun _ => .ok [⟨"KRW", some "7.5"⟩]) [] = .ok free ∧
      free.lookup "KRW" = some (jsParseFloat (some "7.5")) :=
  upbit_C2_amended (fun _ => .ok [⟨"KRW", some "7.5"⟩]) [] [⟨"KRW", some "7.5"⟩]
    ⟨"KRW", some "7.5"⟩ rfl (by decide) (by decide)

/-- C5: `createOrder` with any type other than `limit` throws
`ExchangeError('Order type not supported.')` (the spec's
`UnsupportedOperation`/`UnsupportedOrderType`) and issues zero network
requests, regardless of the other arguments. -/
theorem upbit_C5
    (postOrders : List (String × JVal) → Except UpbitError CreateResponse)
    (symbol type side : String) (amount : ℚ) (price : Option ℚ)
    (params : List (String × JVal)) (h : type ≠ "limit") :
    createOrder postOrders symbol type side amount price params =
      (.error (.exchangeError "Order type not supported."), []) := by
  simp [createOrder, h]

/-- Witness for C5 at `type = "market"`. -/
theorem upbit_C5_witness :
    ("market" : String) ≠ "limit" ∧
    createOrder (fun _ => .ok ⟨"u"⟩) "BTC/KRW" "market" "buy" 1 none [] =
      (.error (.exchangeError "Order type not supported."), []) :=
  ⟨by decide, upbit_C5 (fun _ => .ok ⟨"u"⟩) "BTC/KRW" "market" "buy" 1 none []
    (by decide)⟩

/-- The single request a `limit` `createOrder` posts. -/
theorem createOrder_limit_requests
    (postOrders : List (String × JVal) → Except UpbitError CreateResponse)
    (symbol side : String) (amount : ℚ) (price : Option ℚ)
    (params : List (String × JVal)) :
    (createOrder postOrders symbol "limit" side amount price params).2 =
      [jsExtend
        [("market", JVal.s (normalizeSymbol symbol)),
         ("side", JVal.s (if side = "buy" then "bid"
                          else if side = "sell" then "ask" else side)),
         ("volume", JVal.n (if side = "buy" then amount * (1 / (1.0015 : ℚ))
                            else amount)),
         ("price", jsOptNum price), ("ord_type", JVal.s "limit")] params] := by
  cases hpost : postOrders (jsExtend
      [("market", JVal.s (normalizeSymbol symbol)),
       ("side", JVal.s (if side = "buy" then "bid"
                        else if side = "sell" then "ask" else side)),
       ("volume", JVal.n (if side = "buy" then amount * (1 / (1.0015 : ℚ))
                          else amount)),
       ("price", jsOptNum price), ("ord_type", JVal.s "limit")] params) with
  | error e =>
    simp only [one_div] at hpost
    simp [createOrder, hpost]
  | ok r =>
    simp only [one_div] at hpost
    simp [createOrder, hpost]

/-- C6: a `limit` `createOrder` with side `buy` posts a vendor request with
side `bid` and volume `amount × (1 / 1.0015)`; with side `sell` it posts
side `ask` and the amount unchanged (provided `params` does not override
the `side`/`volume` fields, which `this.extend` would let it do). -/
theorem upbit_C6
    (postOrders : List (String × JVal) → Except UpbitError CreateResponse)
    (symbol : String) (amount : ℚ) (price : Option ℚ)
    (params : List (String × JVal))
    (hs : params.lookup "side" = none) (hv : params.lookup "volume" = none) :
    ((createOrder postOrders symbol "limit" "buy" amount price params).2.map
        (fun req => (req.lookup "side", req.lookup "volume"))) =
      [(some (JVal.s "bid"), some (JVal.n (amount * (1 / (1.0015 : ℚ)))))] ∧
    ((createOrder postOrders symbol "limit" "sell" amount price params).2.map
        (fun req => (req.lookup "side", req.lookup "volume"))) =
      [(some (JVal.s "ask"), some (JVal.n amount))] := by
  constructor <;>
    rw [createOrder_limit_requests] <;>
    simp [jsExtend, List.lookup, hs, hv]

/-- Witness for C6 with empty extra params, amount 10, price 100. -/
theorem upbit_C6_witness :
    (([] : List (String × JVal)).lookup "side" = none) ∧
    ((createOrder (fun _ => .ok ⟨"u"⟩) "BTC/KRW" "limit" "buy" 10 (some 100)
        []).2.map (fun req => (req.lookup "side", req.lookup "volume"))) =
      [(some (JVal.s "bid"), some (JVal.n (10 * (1 / (1.0015 : ℚ)))))] ∧
    ((createOrder (fun _ => .ok ⟨"u"⟩) "BTC/KRW" "limit" "sell" 10 (some 100)
        []).2.map (fun req => (req.lookup "side", req.lookup "volume"))) =
      [(some (JVal.s "ask"), some (JVal.n 10))] := by
  obtain ⟨h1, h2⟩ :=
    upbit_C6 (fun _ => .ok ⟨"u"⟩) "BTC/KRW" 10 (some 100) [] rfl rfl
  exact ⟨rfl, h1, h2⟩

/-- C7 counterexample: the input `"BTC"` has no separator, yet
`normalizeSymbol` does not fail with `InvalidSymbolFormat` (it cannot fail
at all); it returns the garbage market code `"undefined-BTC"` built from
the JS `undefined` coercion. -/
theorem upbit_C7_counterexample : normalizeSymbol "BTC" = "undefined-BTC" := by
  rfl

/-- C7 (amended): `normalizeSymbol` is total and performs no validation.
For an input with exactly one `/` separator it returns `QUOTE-BASE` (this
half of the claim holds); malformed input is not rejected — it yields a
garbage market code (see the counterexample) instead of raising
`InvalidSymbolFormat`. -/
theorem upbit_C7_amended (b q : String)
    (hb : '/' ∉ b.data) (hq : '/' ∉ q.data) :
    normalizeSymbol (b ++ "/" ++ q) = q ++ "-" ++ b := by
  unfold normalizeSymbol jsIndexStr
  have hdata : (b ++ "/" ++ q).data = b.data ++ '/' :: q.data := by
    rw [String.data_append, String.data_append]
    show (b.data ++ ['/']) ++ q.data = _
    simp
  rw [hdata, charSplit_append_sep '/' b.data (q.data) hb,
    charSplit_of_not_mem '/' q.data hq]
  simp only [List.getD]
  apply String.ext
  simp [String.data_append]

/-- Witness for C7 (amended) at `BTC/KRW`. -/
theorem upbit_C7_amended_witness :
    ('/' ∉ "BTC".data) ∧ normalizeSymbol ("BTC" ++ "/" ++ "KRW") = "KRW" ++ "-" ++ "BTC" :=
  ⟨by decide, upbit_C7_amended "BTC" "KRW" (by decide) (by decide)⟩

/-- C10: calling `fetchMyTrades` without a symbol throws an
`ExchangeError` whose message is prefixed with the adapter id (`upbit`)
before any network request is issued (the issued-request list is empty). -/
theorem upbit_C10
    (getOrders : List (String × JVal) → Except UpbitError (List VendorOrder))
    (params : List (String × JVal)) :
    fetchMyTrades getOrders none params =
      (.error (.exchangeError "upbit fetchMyTrades requires a symbol argument"),
        []) := by
  rfl

/-- C3 counterexample: a private request with NO non-path parameters — the
serialized body is the empty string, i.e. the request carries no body
content (and, being a GET, the spec's own model places nothing in a body) —
is nevertheless signed with a `query` claim (of value `""`), not with only
the `access_key` and `nonce` claims: the JS guard `params !== \x7b\x7d`
compares object references and is always true. -/
theorem upbit_C3_counterexample :
    signRequest ⟨"k", "s", 1700000000000⟩ "accounts" "private" "GET" [] none =
      .ok { url := "https://api.upbit.com/v1/accounts?", method := "GET",
            body := some "",
            token := some ({ access_key := "k", nonce := "1700000000000",
                             query := some "" }, "s") } := by
  rfl

/-- C3 (amended): in the bearer-token variant every signed (private)
request's claims object contains the `query` claim — unconditionally, not
`iff the request carries a body` — equal to the URL-encoded serialization
of the non-path parameters (possibly empty), which is also what the body
is always set to; no request is ever signed with only `access_key` and
`nonce`. -/
theorem upbit_C3_amended (env : SignEnv) (path method : String)
    (params : List (String × JVal)) (body : Option String)
    (hk : env.apiKey ≠ "") (hs : env.secret ≠ "") :
    (signRequest env path "private" method params body).map
        (fun r => (r.body,
          r.token.map (fun t => (t.1.query, t.1.access_key, t.1.nonce, t.2)))) =
      .ok (some (urlencode (jsOmit params (extractParams path))),
           some (some (urlencode (jsOmit params (extractParams path))),
                 env.apiKey, toString env.nowMillis, env.secret)) := by
  simp [signRequest, hk, hs, jsNeqFreshObject, jsExtend_nil_left, Except.map]

/-- Witness for C3 (amended) on a concrete GET request with one query
parameter. -/
theorem upbit_C3_amended_witness :
    (("k" : String) ≠ "") ∧
    ((signRequest ⟨"k", "s", 1700000000000⟩ "accounts" "private" "GET"
        [("a", JVal.s "1")] none).map
        (fun r => (r.body,
          r.token.map (fun t => (t.1.query, t.1.access_key, t.1.nonce, t.2)))) =
      .ok (some (urlencode (jsOmit [("a", JVal.s "1")] (extractParams "accounts"))),
           some (some (urlencode (jsOmit [("a", JVal.s "1")]
                    (extractParams "accounts"))),
                 "k", toString (1700000000000 : Int), "s"))) :=
  ⟨by decide,
   upbit_C3_amended ⟨"k", "s", 1700000000000⟩ "accounts" "GET"
     [("a", JVal.s "1")] none (by decide) (by decide)⟩

/-- C4 counterexample: when the `done` and `cancel` sub-results share a
trade (same `uuid`), `fetchMyTrades` performs no deduplication — the
returned sequence contains the same trade identifier twice (and, the
timestamps being equal, it is not strictly descending either). -/
theorem upbit_C4_counterexample :
    (fetchMyTrades
        (fun _ => .ok [⟨"dup", "ask", some 1, some 10, some 10, some 0, 5⟩])
        (some "BTC/KRW") []).1 =
      .ok (.trades
        [normalizeTrade "BTC/KRW" ⟨"dup", "ask", some 1, some 10, some 10, some 0, 5⟩,
         normalizeTrade "BTC/KRW" ⟨"dup", "ask", some 1, some 10, some 10, some 0, 5⟩]) ∧
    ¬ ([normalizeTrade "BTC/KRW" ⟨"dup", "ask", some 1, some 10, some 10, some 0, 5⟩,
        normalizeTrade "BTC/KRW" ⟨"dup", "ask", some 1, some 10, some 10, some 0, 5⟩].map
          CanonicalTrade.id).Nodup := by
  exact ⟨rfl, by decide⟩

/-- C4 (amended): with no explicit state filter, `fetchMyTrades` issues the
`done` request then the `cancel` request and returns a permutation of the
normalized union sorted descending by timestamp — non-strictly (stable
sort, ties preserved) and without deduplication; if either sub-request
fails, the whole call fails after issuing only the requests up to the
failure — no partial trade list. -/
theorem upbit_C4_amended
    (getOrders : List (String × JVal) → Except UpbitError (List VendorOrder))
    (sym : String) (params : List (String × JVal))
    (hno : params.lookup "state" = none) :
    (∀ doneTrades cancelledTrades,
      getOrders (jsExtend (doneRequest sym) params) = .ok doneTrades →
      getOrders (jsExtend (cancelRequest sym) params) = .ok cancelledTrades →
      ∃ ts, fetchMyTrades getOrders (some sym) params =
          (.ok (.trades ts),
           [jsExtend (doneRequest sym) params,
            jsExtend (cancelRequest sym) params]) ∧
        ts.Perm ((doneTrades ++ cancelledTrades).map (normalizeTrade sym)) ∧
        ts.Pairwise tsDesc) ∧
    (∀ e, getOrders (jsExtend (doneRequest sym) params) = .error e →
      fetchMyTrades getOrders (some sym) params =
        (.error e, [jsExtend (doneRequest sym) params])) ∧
    (∀ doneTrades e,
      getOrders (jsExtend (doneRequest sym) params) = .ok doneTrades →
      getOrders (jsExtend (cancelRequest sym) params) = .error e →
      fetchMyTrades getOrders (some sym) params =
        (.error e, [jsExtend (doneRequest sym) params,
                    jsExtend (cancelRequest sym) params])) := by
  refine ⟨?_, ?_, ?_⟩
  · intro doneTrades cancelledTrades hd hc
    refine ⟨List.insertionSort tsDesc
        ((doneTrades ++ cancelledTrades).map (normalizeTrade sym)), ?_, ?_, ?_⟩
    · simp [fetchMyTrades, hno, hd, hc]
    · exact List.perm_insertionSort tsDesc _
    · haveI : IsTotal CanonicalTrade tsDesc :=
        ⟨fun a b => le_total b.timestamp a.timestamp⟩
      haveI : IsTrans CanonicalTrade tsDesc :=
        ⟨fun a b c h1 h2 => le_trans h2 h1⟩
      exact List.sorted_insertionSort tsDesc _
  · intro e hd
    simp [fetchMyTrades, hno, hd]
  · intro doneTrades e hd hc
    simp [fetchMyTrades, hno, hd, hc]

/-- Witness for C4 (amended) on distinct `done`/`cancel` responses. -/
theorem upbit_C4_amended_witness :
    (([] : List (String × JVal)).lookup "state" = none) ∧
    (∃ ts, fetchMyTrades
        (fun req => if req.lookup "state" = some (JVal.s "done")
          then .ok [⟨"a", "ask", some 1, some 1, some 1, some 0, 100⟩]
          else .ok [⟨"b", "bid", some 1, some 1, some 1, some 0, 200⟩])
        (some "BTC/KRW") [] =
        (.ok (.trades ts),
         [jsExtend (doneRequest "BTC/KRW") [],
          jsExtend (cancelRequest "BTC/KRW") []]) ∧
      ts.Perm ((([⟨"a", "ask", some 1, some 1, some 1, some 0, 100⟩] : List VendorOrder) ++
          ([⟨"b", "bid", some 1, some 1, some 1, some 0, 200⟩] : List VendorOrder)).map
            (normalizeTrade "BTC/KRW")) ∧
      ts.Pairwise tsDesc) :=
  ⟨rfl,
   (upbit_C4_amended
      (fun req => if req.lookup "state" = some (JVal.s "done")
        then .ok [⟨"a", "ask", some 1, some 1, some 1, some 0, 100⟩]
        else .ok [⟨"b", "bid", some 1, some 1, some 1, some 0, 200⟩])
      "BTC/KRW" [] rfl).1
     ([⟨"a", "ask", some 1, some 1, some 1, some 0, 100⟩] : List VendorOrder)
     ([⟨"b", "bid", some 1, some 1, some 1, some 0, 200⟩] : List VendorOrder)
     rfl rfl⟩

/-- C8: the error classifier never raises on status `"0000"`; any other
status raises the table-mapped kind (`5100` is mapped, to `ExchangeError`)
or the generic `ExchangeError`, in both cases carrying the adapter id and
the serialized vendor payload; a missing body, a body shorter than 2
characters, a body not starting with `\x7b` or `[`, and a payload without
a `status` key all raise nothing and defer to the default handler. -/
theorem upbit_C8 (parse : String → Json) (body : Option String) :
    (body = none → handleErrors parse body = none) ∧
    (∀ s, body = some s → s.length < 2 → handleErrors parse body = none) ∧
    (∀ s, body = some s → s.front ≠ '\x7b' → s.front ≠ '[' →
      handleErrors parse body = none) ∧
    (∀ s, body = some s → parse s = .other → handleErrors parse body = none) ∧
    (∀ s fields, body = some s → parse s = .obj fields →
      fields.lookup "status" = none → handleErrors parse body = none) ∧
    (∀ s fields, body = some s → parse s = .obj fields →
      fields.lookup "status" = some "0000" → handleErrors parse body = none) ∧
    (∀ s fields, body = some s → 2 ≤ s.length →
      (s.front = '\x7b' ∨ s.front = '[') → parse s = .obj fields →
      fields.lookup "status" = some "5100" →
      handleErrors parse body =
        some (.exchangeError ("upbit " ++ jsonStringify fields))) ∧
    (∀ s fields status, body = some s → 2 ≤ s.length →
      (s.front = '\x7b' ∨ s.front = '[') → parse s = .obj fields →
      fields.lookup "status" = some status → status ≠ "0000" →
      handleErrors parse body =
        some (.exchangeError ("upbit " ++ jsonStringify fields))) := by
  refine ⟨?_, ?_, ?_, ?_, ?_, ?_, ?_, ?_⟩
  · intro h
    subst h
    rfl
  · intro s h hlen
    subst h
    simp [handleErrors, hlen]
  · intro s h h1 h2
    subst h
    simp [handleErrors, h1, h2]
  · intro s h hparse
    subst h
    simp [handleErrors, hparse]
  · intro s fields h hparse hlook
    subst h
    simp [handleErrors, hparse, hlook]
  · intro s fields h hparse hlook
    subst h
    simp [handleErrors, hparse, hlook]
  · intro s fields h hlen hbr hparse hlook
    subst h
    have hlen2 : ¬ s.length < 2 := by omega
    rcases hbr with hb | hb <;>
      simp [handleErrors, hlen2, hb, hparse, hlook, exceptionsTable, List.lookup]
  · intro s fields status h hlen hbr hparse hlook hne
    subst h
    have hlen2 : ¬ s.length < 2 := by omega
    by_cases h51 : status = "5100"
    · subst h51
      rcases hbr with hb | hb <;>
        simp [handleErrors, hlen2, hb, hparse, hlook, hne, exceptionsTable,
          List.lookup]
    · have hbeq : (status == "5100") = false := by
        simp [beq_eq_false_iff_ne, h51]
      rcases hbr with hb | hb <;>
        simp [handleErrors, hlen2, hb, hparse, hlook, hne, hbeq, exceptionsTable,
          List.lookup]

/-- Witness for C8: a mapped `5100` error body raises `ExchangeError` with
the adapter-prefixed feedback, a `0000` body raises nothing, and a short
body defers. -/
theorem upbit_C8_witness :
    handleErrors (fun _ => Json.obj [("status", "5100"), ("message", "m")])
        (some "\x7b\"status\":\"5100\",\"message\":\"m\"\x7d") =
      some (UpbitError.exchangeError
        ("upbit " ++ jsonStringify [("status", "5100"), ("message", "m")])) ∧
    handleErrors (fun _ => Json.obj [("status", "0000")])
        (some "\x7b\"status\":\"0000\"\x7d") = none ∧
    handleErrors (fun _ => Json.other) (some "x") = none := by
  refine ⟨?_, ?_, ?_⟩
  · exact (upbit_C8 (fun _ => Json.obj [("status", "5100"), ("message", "m")])
      (some "\x7b\"status\":\"5100\",\"message\":\"m\"\x7d")).2.2.2.2.2.2.1
      "\x7b\"status\":\"5100\",\"message\":\"m\"\x7d"
      [("status", "5100"), ("message", "m")] rfl (by decide)
      (Or.inl (by decide)) rfl rfl
  · exact (upbit_C8 (fun _ => Json.obj [("status", "0000")])
      (some "\x7b\"status\":\"0000\"\x7d")).2.2.2.2.2.1
      "\x7b\"status\":\"0000\"\x7d" [("status", "0000")] rfl rfl rfl
  · exact (upbit_C8 (fun _ => Json.other) (some "x")).2.1 "x" rfl (by decide)

/-- C9 counterexample: with `state=wait`, `fetchMyTrades` returns the RAW
vendor order records — not canonical trade records — and in vendor order
(the `_.orderBy` key `timestamp` does not exist on them, and its direction
is `asc` anyway), here ascending in creation time, not descending. -/
theorem upbit_C9_counterexample :
    fetchMyTrades
        (fun _ => .ok [⟨"a", "ask", some 1, some 1, some 1, some 0, 100⟩,
                       ⟨"b", "ask", some 1, some 1, some 1, some 0, 200⟩])
        (some "BTC/KRW") [("state", JVal.s "wait")] =
      (.ok (.raw [⟨"a", "ask", some 1, some 1, some 1, some 0, 100⟩,
                  ⟨"b", "ask", some 1, some 1, some 1, some 0, 200⟩]),
       [waitRequest "BTC/KRW"]) ∧
    (⟨"a", "ask", some 1, some 1, some 1, some 0, 100⟩ : VendorOrder).created_at <
      (⟨"b", "ask", some 1, some 1, some 1, some 0, 200⟩ : VendorOrder).created_at := by
  exact ⟨rfl, by decide⟩

/-- C9 (amended): for the `done`/`cancel` states `fetchMyTrades` does
return canonical trades sorted descending by timestamp, but for
`state=wait` it returns the raw vendor records unchanged, in vendor order:
the sort key `timestamp` is absent from the records and the requested
direction is ascending, so the stable sort is the identity. -/
theorem upbit_C9_amended
    (getOrders : List (String × JVal) → Except UpbitError (List VendorOrder))
    (sym : String) (params : List (String × JVal))
    (waitTrades : List VendorOrder)
    (hstate : params.lookup "state" = some (JVal.s "wait"))
    (hok : getOrders (waitRequest sym) = .ok waitTrades) :
    fetchMyTrades getOrders (some sym) params =
      (.ok (.raw waitTrades), [waitRequest sym]) := by
  have hsorted : ∀ l : List VendorOrder, List.Sorted (fun _ _ => True) l := by
    intro l
    induction l with
    | nil => exact List.Pairwise.nil
    | cons a t ih => exact List.Pairwise.cons (fun _ _ => trivial) ih
  have hid : jsOrderByMissingKeyAsc waitTrades = waitTrades :=
    List.Sorted.insertionSort_eq (hsorted waitTrades)
  simp [fetchMyTrades, hstate, hok, hid]

/-- Witness for C9 (amended) on a two-record wait response. -/
theorem upbit_C9_amended_witness :
    (([("state", JVal.s "wait")] : List (String × JVal)).lookup "state" =
      some (JVal.s "wait")) ∧
    fetchMyTrades
        (fun _ => .ok [⟨"w1", "bid", some 1, some 1, some 1, some 0, 300⟩,
                       ⟨"w2", "ask", some 1, some 1, some 1, some 0, 400⟩])
        (some "BTC/KRW") [("state", JVal.s "wait")] =
      (.ok (.raw [⟨"w1", "bid", some 1, some 1, some 1, some 0, 300⟩,
                  ⟨"w2", "ask", some 1, some 1, some 1, some 0, 400⟩]),
       [waitRequest "BTC/KRW"]) :=
  ⟨rfl,
   upbit_C9_amended
     (fun _ => .ok [⟨"w1", "bid", some 1, some 1, some 1, some 0, 300⟩,
                    ⟨"w2", "ask", some 1, some 1, some 1, some 0, 400⟩])
     "BTC/KRW" [("state", JVal.s "wait")]
     ([⟨"w1", "bid", some 1, some 1, some 1, some 0, 300⟩,
       ⟨"w2", "ask", some 1, some 1, some 1, some 0, 400⟩] : List VendorOrder)
     rfl rfl⟩
